import Mathlib

/-!
Verification of the process-hierarchy inspection tool, a shallow embedding of
the C source file ProcessHierarchy.c.

The external world (the proc pseudo-filesystem and the signal interface) is
modelled by an environment: the numeric directory entries of the process
listing in readdir order, the parsed contents of each per-pid stat record
(none when the record is unreadable or unparsable), and whether a kill call
on a given pid succeeds.  Output lines and signal deliveries are modelled as
a list of events: stdout lines, stderr diagnostics, and signal sends each get
a dedicated constructor, so ordering and membership of side effects can be
reasoned about directly.
-/

/-- A parsed per-pid stat record, mirroring the C struct ProcessInfo. -/
structure ProcessInfo where
  pid : Nat
  ppid : Nat
  state : Char
deriving DecidableEq

/-- The modelled external world: the numeric entries of the process listing
in readdir order, the per-pid stat contents (none means unreadable), and the
outcome of delivering a signal to each pid. -/
structure Env where
  entries : List Nat
  stat : Nat → Option ProcessInfo
  killOk : Nat → Bool

/-- The three signals the tool delivers. -/
inductive Sig where
  | kill
  | stop
  | cont
deriving DecidableEq

/-- Observable effects: stdout result lines, stderr diagnostics and signal
delivery attempts, one constructor per distinct message of the C source. -/
inductive Event where
  | sigSend (sig : Sig) (target : Nat)
  | pidLine (p : Nat)
  | countLine (n : Nat)
  | basicInfo (p pp : Nat)
  | statusLine (p : Nat) (defunct : Bool)
  | errTargetInfo (p : Nat)
  | errStatus (p : Nat)
  | errRootMissing (p : Nat)
  | errBadArgs
  | errInvalidOption
  | notInTreeNotice (target root : Nat)
  | overflowWarn
  | killedMsg (p : Nat)
  | killFailMsg (p : Nat)
  | killedMissedMsg (p : Nat)
  | killMissedFailMsg (p : Nat)
  | missedNote (n : Nat)
  | killedParentMsg (parent zombie : Nat)
  | killParentFailMsg (parent zombie : Nat)
  | noZombieMsg (p : Nat)
  | stoppedMsg (p : Nat)
  | stopFailMsg (p : Nat)
  | contMsg (p : Nat)
  | contFailMsg (p : Nat)
  | rootKilledMsg (p : Nat)
  | rootKillFailMsg (p : Nat)
deriving DecidableEq

/-- get_process_info: reading a stat record; an unreadable or unparsable
record yields the zeroed struct, exactly as the C function returns its
zero-initialised info on fopen or fscanf failure. -/
def get_process_info (env : Env) (pid : Nat) : ProcessInfo :=
  match env.stat pid with
  | none => ⟨0, 0, ' '⟩
  | some info => info

/-- One step up the ancestor chain: the parent pid recorded for p, which is
0 when the record of p is unreadable. -/
def chain_step (env : Env) (p : Nat) : Nat :=
  (get_process_info env p).ppid

/-- The fuelled ancestor walk inside is_in_tree.  The C loop guard is
current != 0 && iterations++ < 1000, and the body first compares current
with the root and then steps to the parent of current. -/
def walk_up (env : Env) (root_pid : Nat) : Nat → Nat → Bool
  | _, 0 => false
  | current, fuel + 1 =>
    if current = 0 then false
    else if current = root_pid then true
    else walk_up env root_pid (chain_step env current) fuel

/-- is_in_tree(root_pid, target_pid): reflexive on equal pids, false when the
target record is unreadable, otherwise a bounded walk up the parent chain
starting from the parent of the target. -/
def is_in_tree (env : Env) (root_pid target_pid : Nat) : Bool :=
  if root_pid = target_pid then true
  else
    let info := get_process_info env target_pid
    if info.pid = 0 then false
    else walk_up env root_pid info.ppid 1000

/-- The k-th element of the ancestor chain of start: start itself for k = 0,
then repeated parent steps. -/
def chainNth (env : Env) (start : Nat) : Nat → Nat
  | 0 => start
  | k + 1 => chain_step env (chainNth env start k)

/-- Well-formedness of the modelled proc filesystem, as holds of the real
one: there is no entry for pid 0, every readable record carries its own pid
and is not its own parent, and the numeric directory entries are positive. -/
def WFEnv (env : Env) : Prop :=
  env.stat 0 = none ∧
  (∀ p r, env.stat p = some r → r.pid = p ∧ r.ppid ≠ p) ∧
  (∀ p, p ∈ env.entries → 0 < p)

/-- Scanning the process listing: the per-entry events, concatenated in
readdir order.  Every bulk query of the C source is one such scan. -/
def perEntry (env : Env) (f : Nat → List Event) : List Event :=
  (env.entries.map f).flatten

/-- print_basic_info: the no-option output (the C code prints the pid field
of the record it read, together with its parent pid). -/
def print_basic_info (env : Env) (pid : Nat) : List Event :=
  if (get_process_info env pid).pid = 0 then [Event.errTargetInfo pid]
  else [Event.basicInfo (get_process_info env pid).pid (get_process_info env pid).ppid]

/-- The per-entry condition counted by count_defunct_descendants: a readable
record, inside the tree of t, in zombie state. -/
def defunctPred (env : Env) (t q : Nat) : Bool :=
  (get_process_info env q).pid != 0 &&
    (is_in_tree env t q && ((get_process_info env q).state == 'Z'))

/-- count_defunct_descendants: one count per matching entry of the listing. -/
def count_defunct_descendants (env : Env) (t : Nat) : Nat :=
  env.entries.countP (defunctPred env t)

/-- list_non_direct_descendants: tree members that are neither a direct
child of parent nor the target itself. -/
def list_non_direct_descendants (env : Env) (pid parent : Nat) : List Event :=
  perEntry env (fun q =>
    if (get_process_info env q).pid = 0 then []
    else if is_in_tree env pid q = true ∧ (get_process_info env q).ppid ≠ parent ∧
        q ≠ pid then
      [Event.pidLine q]
    else [])

/-- list_immediate_descendants: entries whose record is readable and whose
parent pid equals the target. -/
def list_immediate_descendants (env : Env) (pid : Nat) : List Event :=
  perEntry env (fun q =>
    if (get_process_info env q).pid = 0 then []
    else if (get_process_info env q).ppid = pid then [Event.pidLine q]
    else [])

/-- list_siblings: fails when the target record is unreadable; otherwise
prints every other entry whose parent pid equals the parent pid of the
target.  Note that, unlike the other scans, the C loop body has no check
that the record of the scanned entry itself was readable. -/
def list_siblings (env : Env) (pid : Nat) : List Event :=
  if (get_process_info env pid).pid = 0 then [Event.errTargetInfo pid]
  else
    perEntry env (fun q =>
      if q = pid then []
      else if (get_process_info env q).ppid = (get_process_info env pid).ppid then
        [Event.pidLine q]
      else [])

/-- list_defunct_siblings: as list_siblings but additionally requiring the
zombie state. -/
def list_defunct_siblings (env : Env) (pid : Nat) : List Event :=
  if (get_process_info env pid).pid = 0 then [Event.errTargetInfo pid]
  else
    perEntry env (fun q =>
      if q = pid then []
      else if (get_process_info env q).ppid = (get_process_info env pid).ppid ∧
          (get_process_info env q).state = 'Z' then [Event.pidLine q]
      else [])

/-- list_defunct_descendants: readable records in the tree of pid, in zombie
state, the target itself excluded. -/
def list_defunct_descendants (env : Env) (pid : Nat) : List Event :=
  perEntry env (fun q =>
    if (get_process_info env q).pid = 0 then []
    else if is_in_tree env pid q = true ∧ (get_process_info env q).state = 'Z' ∧
        q ≠ pid then
      [Event.pidLine q]
    else [])

/-- list_grandchildren: the nested scan; for every entry whose parent pid is
the target, every entry whose parent pid is that child. -/
def list_grandchildren (env : Env) (pid : Nat) : List Event :=
  perEntry env (fun c =>
    if (get_process_info env c).ppid = pid then
      perEntry env (fun g =>
        if (get_process_info env g).ppid = c then [Event.pidLine g] else [])
    else [])

/-- print_status: zombie or not for a single pid, error when unreadable. -/
def print_status (env : Env) (pid : Nat) : List Event :=
  if (get_process_info env pid).pid = 0 then [Event.errStatus pid]
  else [Event.statusLine pid ((get_process_info env pid).state == 'Z')]

/-- The loop of kill_zombie_parents: the flag killed_any is set only when a
kill call succeeds, and the no-zombie message is printed after the loop when
the flag is still unset. -/
def kzp_go (env : Env) (pid : Nat) : List Nat → Bool → List Event
  | [], killed_any => if killed_any then [] else [Event.noZombieMsg pid]
  | q :: rest, killed_any =>
    let info := get_process_info env q
    if info.pid = 0 ∨ is_in_tree env pid q = false then
      kzp_go env pid rest killed_any
    else if info.state = 'Z' ∧ info.ppid ≠ 0 then
      if env.killOk info.ppid then
        Event.sigSend Sig.kill info.ppid ::
          Event.killedParentMsg info.ppid q :: kzp_go env pid rest true
      else
        Event.sigSend Sig.kill info.ppid ::
          Event.killParentFailMsg info.ppid q :: kzp_go env pid rest killed_any
    else kzp_go env pid rest killed_any

/-- kill_zombie_parents: scan all entries with the flag initially unset. -/
def kill_zombie_parents (env : Env) (pid : Nat) : List Event :=
  kzp_go env pid env.entries false

/-- The collection loop of kill_descendants: matching pids are appended to
the buffer while fewer than 1024 have been collected; the first matching pid
beyond that emits the overflow warning and breaks out of the scan.  The
boolean result records whether the overflow branch was taken. -/
def collect_go (env : Env) (pid : Nat) : List Nat → List Nat → List Nat × Bool
  | [], acc => (acc, false)
  | q :: rest, acc =>
    let info := get_process_info env q
    if info.pid = 0 then collect_go env pid rest acc
    else if is_in_tree env pid q = true ∧ q ≠ pid then
      if acc.length < 1024 then collect_go env pid rest (acc ++ [q])
      else (acc, true)
    else collect_go env pid rest acc

/-- One kill of the first pass of kill_descendants: the signal delivery
attempt followed by the success or failure message. -/
def kd_kill_one (env : Env) (p : Nat) : List Event :=
  if env.killOk p then [Event.sigSend Sig.kill p, Event.killedMsg p]
  else [Event.sigSend Sig.kill p, Event.killFailMsg p]

/-- The kill loop of the first pass: the C for loop runs the index i from
descendant_count - 1 down to 0 and kills descendants[i]. -/
def kd_kill_pass (env : Env) (descendants : List Nat) : List Event :=
  ((List.range descendants.length).reverse.map
    (fun i => kd_kill_one env (descendants.getD i 0))).flatten

/-- The entries the reconciliation rescan of kill_descendants acts on:
readable records still in the tree, the target itself excluded. -/
def kd_rescan_targets (env : Env) (pid : Nat) : List Nat :=
  env.entries.filter (fun q =>
    (get_process_info env q).pid != 0 &&
      (is_in_tree env pid q && (q != pid)))

/-- One kill of the rescan, with the missed-descendant messages. -/
def kd_missed_one (env : Env) (p : Nat) : List Event :=
  if env.killOk p then [Event.sigSend Sig.kill p, Event.killedMissedMsg p]
  else [Event.sigSend Sig.kill p, Event.killMissedFailMsg p]

/-- The reconciliation rescan: each still-matching entry is killed again and
counted, and a summary note is printed when any were found. -/
def kd_rescan (env : Env) (pid : Nat) : List Event :=
  ((kd_rescan_targets env pid).map (kd_missed_one env)).flatten ++
    (if 0 < (kd_rescan_targets env pid).length then
      [Event.missedNote (kd_rescan_targets env pid).length]
    else [])

/-- kill_descendants: collect (emitting the overflow warning when the buffer
filled), kill the collected pids backwards, then rescan.  Both passes read
the same environment: the model keeps the external world fixed for the
duration of the call. -/
def kill_descendants (env : Env) (pid : Nat) : List Event :=
  (if (collect_go env pid env.entries []).2 then [Event.overflowWarn] else []) ++
    kd_kill_pass env (collect_go env pid env.entries []).1 ++
    kd_rescan env pid

/-- stop_descendants: single pass, SIGSTOP to every tree member but the
target. -/
def stop_descendants (env : Env) (pid : Nat) : List Event :=
  perEntry env (fun q =>
    if (get_process_info env q).pid = 0 then []
    else if is_in_tree env pid q = true ∧ q ≠ pid then
      if env.killOk q then [Event.sigSend Sig.stop q, Event.stoppedMsg q]
      else [Event.sigSend Sig.stop q, Event.stopFailMsg q]
    else [])

/-- continue_descendants: single pass, SIGCONT only to tree members observed
in the stopped state. -/
def continue_descendants (env : Env) (pid : Nat) : List Event :=
  perEntry env (fun q =>
    if (get_process_info env q).pid = 0 then []
    else if is_in_tree env pid q = true ∧ q ≠ pid ∧
        (get_process_info env q).state = 'T' then
      if env.killOk q then [Event.sigSend Sig.cont q, Event.contMsg q]
      else [Event.sigSend Sig.cont q, Event.contFailMsg q]
    else [])

/-- The option flags of the command line, one constructor per recognised
flag plus one for an unrecognised string. -/
inductive CliOpt where
  | dc
  | ds
  | idf
  | lg
  | lz
  | df
  | gc
  | pstat
  | pz
  | sk
  | st
  | dt
  | rp
  | badOpt
deriving DecidableEq

/-- The main driver after argument-count checking: pid validation, the
root-existence check, the tree-membership gate, then option dispatch.
Returns the exit code and the emitted events. -/
def runMain (env : Env) (root_pid target_pid : Nat) (opt : Option CliOpt) :
    Nat × List Event :=
  if root_pid = 0 ∨ target_pid = 0 then (1, [Event.errBadArgs])
  else if (get_process_info env root_pid).pid = 0 then
    (1, [Event.errRootMissing root_pid])
  else if is_in_tree env root_pid target_pid = false then
    match opt with
    | some _ => (0, [Event.notInTreeNotice target_pid root_pid])
    | none => (0, [])
  else
    match opt with
    | none => (0, print_basic_info env target_pid)
    | some CliOpt.dc => (0, [Event.countLine (count_defunct_descendants env target_pid)])
    | some CliOpt.ds => (0, list_non_direct_descendants env target_pid target_pid)
    | some CliOpt.idf => (0, list_immediate_descendants env target_pid)
    | some CliOpt.lg => (0, list_siblings env target_pid)
    | some CliOpt.lz => (0, list_defunct_siblings env target_pid)
    | some CliOpt.df => (0, list_defunct_descendants env target_pid)
    | some CliOpt.gc => (0, list_grandchildren env target_pid)
    | some CliOpt.pstat => (0, print_status env target_pid)
    | some CliOpt.pz => (0, kill_zombie_parents env target_pid)
    | some CliOpt.sk => (0, kill_descendants env target_pid)
    | some CliOpt.st => (0, stop_descendants env target_pid)
    | some CliOpt.dt => (0, continue_descendants env target_pid)
    | some CliOpt.rp =>
      if env.killOk root_pid then
        (0, [Event.sigSend Sig.kill root_pid, Event.rootKilledMsg root_pid])
      else
        (0, [Event.sigSend Sig.kill root_pid, Event.rootKillFailMsg root_pid])
    | some CliOpt.badOpt => (1, [Event.errInvalidOption])

/-- The sequence of pids to which a kill-signal delivery was attempted, in
order, extracted from an event trace. -/
def killTargets (evs : List Event) : List Nat :=
  evs.filterMap (fun e =>
    match e with
    | Event.sigSend Sig.kill p => some p
    | _ => none)

/-- Whether the record of t itself is readable and in zombie state. -/
def isZombieRec (env : Env) (t : Nat) : Bool :=
  (get_process_info env t).pid != 0 && ((get_process_info env t).state == 'Z')

/-- The condition of the kill branch of kill_zombie_parents: a readable
record, in the tree, in zombie state, with a nonzero parent pid. -/
def zombieDescCond (env : Env) (pid q : Nat) : Bool :=
  (get_process_info env q).pid != 0 &&
    (is_in_tree env pid q &&
      (((get_process_info env q).state == 'Z') &&
        ((get_process_info env q).ppid != 0)))

/-- A concrete environment built from a listing and a record table: stat
looks the pid up in the table, and every kill call has the given outcome. -/
def envOfList (es : List Nat) (l : List ProcessInfo) (ko : Bool) : Env :=
  ⟨es, fun p => l.find? (fun r => r.pid == p), fun _ => ko⟩

/-- A three-process chain 1 <- 2 <- 3 with 3 a zombie; kills succeed. -/
def envA : Env :=
  envOfList [1, 2, 3] [⟨1, 0, 'S'⟩, ⟨2, 1, 'S'⟩, ⟨3, 2, 'Z'⟩] true

/-- A zombie child 2 of process 1, in a world where every kill fails. -/
def envZ : Env :=
  envOfList [1, 2] [⟨1, 0, 'S'⟩, ⟨2, 1, 'Z'⟩] false

/-- Process 1 plus a listing entry 5 whose record has vanished. -/
def envV : Env :=
  envOfList [1, 5] [⟨1, 0, 'S'⟩] true

theorem envOfList_wf (es : List Nat) (l : List ProcessInfo) (ko : Bool)
    (hl : ∀ r ∈ l, 0 < r.pid ∧ r.ppid ≠ r.pid) (hes : ∀ p ∈ es, 0 < p) :
    WFEnv (envOfList es l ko) := by
  refine ⟨?_, ?_, hes⟩
  · show l.find? (fun r => r.pid == 0) = none
    apply List.find?_eq_none.mpr
    intro r hr
    simp only [beq_iff_eq]
    have := (hl r hr).1
    omega
  · intro p r hr
    have hr' : l.find? (fun r => r.pid == p) = some r := hr
    have hmem : r ∈ l := List.mem_of_find?_eq_some hr'
    have hpred := List.find?_some hr'
    have hp : r.pid = p := by simpa using hpred
    exact ⟨hp, hp ▸ (hl r hmem).2⟩

theorem envA_wf : WFEnv envA :=
  envOfList_wf _ _ _ (by decide) (by decide)

theorem envZ_wf : WFEnv envZ :=
  envOfList_wf _ _ _ (by decide) (by decide)

theorem envV_wf : WFEnv envV :=
  envOfList_wf _ _ _ (by decide) (by decide)

theorem get_process_info_none {env : Env} {p : Nat} (h : env.stat p = none) :
    get_process_info env p = ⟨0, 0, ' '⟩ := by
  simp [get_process_info, h]

theorem get_process_info_some {env : Env} {p : Nat} {r : ProcessInfo}
    (h : env.stat p = some r) : get_process_info env p = r := by
  simp [get_process_info, h]

theorem chain_step_zero {env : Env} (hz : env.stat 0 = none) : chain_step env 0 = 0 := by
  simp [chain_step, get_process_info_none hz]

theorem chainNth_zero_absorb {env : Env} (hz : env.stat 0 = none) :
    ∀ k, chainNth env 0 k = 0
  | 0 => rfl
  | k + 1 => by
    rw [chainNth, chainNth_zero_absorb hz k, chain_step_zero hz]

theorem chainNth_succ_front (env : Env) (c : Nat) :
    ∀ j, chainNth env c (j + 1) = chainNth env (chain_step env c) j
  | 0 => rfl
  | j + 1 => by
    show chain_step env (chainNth env c (j + 1)) =
      chain_step env (chainNth env (chain_step env c) j)
    rw [chainNth_succ_front env c j]

theorem walk_up_iff {env : Env} (hz : env.stat 0 = none) {root_pid : Nat}
    (hr : root_pid ≠ 0) :
    ∀ (fuel c : Nat),
      walk_up env root_pid c fuel = true ↔ ∃ j < fuel, chainNth env c j = root_pid := by
  intro fuel
  induction fuel with
  | zero =>
    intro c
    simp [walk_up]
  | succ n ih =>
    intro c
    by_cases hc0 : c = 0
    · subst hc0
      rw [show walk_up env root_pid 0 (n + 1) = false from by simp [walk_up]]
      simp only [Bool.false_eq_true, false_iff, not_exists]
      intro j
      rintro ⟨hj, hcj⟩
      rw [chainNth_zero_absorb hz j] at hcj
      exact hr hcj.symm
    · by_cases hcr : c = root_pid
      · subst hcr
        rw [show walk_up env c c (n + 1) = true from by simp [walk_up, hc0]]
        constructor
        · intro _
          exact ⟨0, Nat.succ_pos n, rfl⟩
        · intro _
          rfl
      · rw [show walk_up env root_pid c (n + 1) =
            walk_up env root_pid (chain_step env c) n from by simp [walk_up, hc0, hcr]]
        rw [ih (chain_step env c)]
        constructor
        · rintro ⟨j, hj, hcj⟩
          refine ⟨j + 1, by omega, ?_⟩
          rw [chainNth_succ_front]
          exact hcj
        · rintro ⟨j, hj, hcj⟩
          match j with
          | 0 => exact absurd hcj hcr
          | j + 1 =>
            rw [chainNth_succ_front] at hcj
            exact ⟨j, by omega, hcj⟩

/-- C1: is_in_tree(root, target) is true exactly when root occurs in the
ancestor chain of target - position 0 is target itself, each further
position one parent link up - within the bounded hop count of 1000.  The
walk returning false when the chain reaches pid 0 or the bound is exceeded
is captured by the bounded existential on the right-hand side. -/
theorem c1_is_in_tree_iff_ancestor_chain (env : Env) (root_pid target_pid : Nat)
    (hwf : WFEnv env) (hroot : 0 < root_pid) :
    is_in_tree env root_pid target_pid = true ↔
      ∃ k ≤ 1000, chainNth env target_pid k = root_pid := by
  obtain ⟨hz, hrec, -⟩ := hwf
  by_cases heq : root_pid = target_pid
  · subst heq
    rw [show is_in_tree env root_pid root_pid = true from by simp [is_in_tree]]
    constructor
    · intro _
      exact ⟨0, by omega, rfl⟩
    · intro _
      rfl
  · cases hstat : env.stat target_pid with
    | none =>
      have hinfo : get_process_info env target_pid = ⟨0, 0, ' '⟩ :=
        get_process_info_none hstat
      have key : is_in_tree env root_pid target_pid = false := by
        simp [is_in_tree, heq, hinfo]
      rw [key]
      simp only [Bool.false_eq_true, false_iff, not_exists]
      intro k
      rintro ⟨hk, hck⟩
      match k with
      | 0 => exact heq hck.symm
      | k + 1 =>
        rw [chainNth_succ_front] at hck
        have hstep : chain_step env target_pid = 0 := by simp [chain_step, hinfo]
        rw [hstep, chainNth_zero_absorb hz] at hck
        omega
    | some r =>
      have hinfo : get_process_info env target_pid = r := get_process_info_some hstat
      obtain ⟨hrp, -⟩ := hrec target_pid r hstat
      have htne : target_pid ≠ 0 := by
        intro h0
        rw [h0, hz] at hstat
        cases hstat
      have hpidne : r.pid ≠ 0 := by
        rw [hrp]
        exact htne
      have key : is_in_tree env root_pid target_pid = walk_up env root_pid r.ppid 1000 := by
        simp [is_in_tree, heq, hinfo, hpidne]
      rw [key, walk_up_iff hz (by omega) 1000 r.ppid]
      have hstep : chain_step env target_pid = r.ppid := by simp [chain_step, hinfo]
      constructor
      · rintro ⟨j, hj, hcj⟩
        refine ⟨j + 1, by omega, ?_⟩
        rw [chainNth_succ_front, hstep]
        exact hcj
      · rintro ⟨k, hk, hck⟩
        match k with
        | 0 => exact absurd hck.symm heq
        | j + 1 =>
          rw [chainNth_succ_front, hstep] at hck
          exact ⟨j, by omega, hck⟩

theorem c1_witness :
    WFEnv envA ∧ 0 < 1 ∧
      (is_in_tree envA 1 3 = true ↔ ∃ k ≤ 1000, chainNth envA 3 k = 1) :=
  ⟨envA_wf, Nat.one_pos, c1_is_in_tree_iff_ancestor_chain envA 1 3 envA_wf Nat.one_pos⟩

/-- C10: when the target differs from the root and the stat record of the
target is unreadable, is_in_tree returns false.  The statement holds for
every environment in which that one record is missing, whatever the other
records contain, so the outcome involves no walk of the ancestor chain. -/
theorem c10_unreadable_target_not_in_tree (env : Env) (root_pid target_pid : Nat)
    (hne : root_pid ≠ target_pid) (hstat : env.stat target_pid = none) :
    is_in_tree env root_pid target_pid = false := by
  simp [is_in_tree, hne, get_process_info_none hstat]

theorem c10_witness : is_in_tree envA 1 7 = false :=
  c10_unreadable_target_not_in_tree envA 1 7 (by decide) (by decide)

theorem killTargets_append (a b : List Event) :
    killTargets (a ++ b) = killTargets a ++ killTargets b :=
  List.filterMap_append a b _

theorem killTargets_kd_kill_one (env : Env) (p : Nat) :
    killTargets (kd_kill_one env p) = [p] := by
  unfold kd_kill_one killTargets
  split <;> rfl

theorem killTargets_kd_missed_one (env : Env) (p : Nat) :
    killTargets (kd_missed_one env p) = [p] := by
  unfold kd_missed_one killTargets
  split <;> rfl

theorem killTargets_flatten_kill_one (env : Env) :
    ∀ l : List Nat, killTargets ((l.map (kd_kill_one env)).flatten) = l
  | [] => rfl
  | p :: l => by
    rw [List.map_cons, List.flatten_cons, killTargets_append, killTargets_kd_kill_one,
      killTargets_flatten_kill_one env l]
    rfl

theorem killTargets_flatten_missed_one (env : Env) :
    ∀ l : List Nat, killTargets ((l.map (kd_missed_one env)).flatten) = l
  | [] => rfl
  | p :: l => by
    rw [List.map_cons, List.flatten_cons, killTargets_append, killTargets_kd_missed_one,
      killTargets_flatten_missed_one env l]
    rfl

theorem map_getD_range : ∀ l : List Nat, (List.range l.length).map (fun i => l.getD i 0) = l
  | [] => rfl
  | a :: l => by
    rw [List.length_cons, List.range_succ_eq_map, List.map_cons]
    rw [List.map_map]
    have hcomp : ((fun i => (a :: l).getD i 0) ∘ (· + 1)) = fun i => l.getD i 0 := by
      funext i
      rfl
    rw [hcomp, map_getD_range l]
    rfl

theorem kd_kill_pass_eq (env : Env) (l : List Nat) :
    kd_kill_pass env l = (l.reverse.map (kd_kill_one env)).flatten := by
  have h1 : (List.range l.length).map (fun i => kd_kill_one env (l.getD i 0)) =
      l.map (kd_kill_one env) := by
    have h2 := map_getD_range l
    calc (List.range l.length).map (fun i => kd_kill_one env (l.getD i 0))
        = ((List.range l.length).map (fun i => l.getD i 0)).map (kd_kill_one env) := by
          rw [List.map_map]
          rfl
      _ = l.map (kd_kill_one env) := by rw [h2]
  unfold kd_kill_pass
  rw [List.map_reverse, h1, List.map_reverse]

theorem kd_kill_pass_targets (env : Env) (l : List Nat) :
    killTargets (kd_kill_pass env l) = l.reverse := by
  rw [kd_kill_pass_eq]
  exact killTargets_flatten_kill_one env l.reverse

theorem event_of_killTargets_some {e : Event} {p : Nat}
    (h : (match e with
      | Event.sigSend Sig.kill q => some q
      | _ => none) = some p) :
    e = Event.sigSend Sig.kill p := by
  cases e
  case sigSend s q =>
    cases s
    case kill =>
      simp only [Option.some.injEq] at h
      rw [h]
    case stop => exact absurd h (by simp)
    case cont => exact absurd h (by simp)
  all_goals exact absurd h (by simp)

theorem mem_killTargets {evs : List Event} {p : Nat} :
    p ∈ killTargets evs ↔ Event.sigSend Sig.kill p ∈ evs := by
  unfold killTargets
  rw [List.mem_filterMap]
  constructor
  · rintro ⟨e, he, hfe⟩
    rw [event_of_killTargets_some hfe] at he
    exact he
  · intro h
    exact ⟨Event.sigSend Sig.kill p, h, rfl⟩

theorem collect_go_spec (env : Env) (pid : Nat) (es : List Nat) :
    ∀ acc : List Nat, acc.length ≤ 1024 →
      (collect_go env pid es acc).1.length ≤ 1024 ∧
        ((collect_go env pid es acc).2 = true →
          (collect_go env pid es acc).1.length = 1024) := by
  induction es with
  | nil =>
    intro acc h
    exact ⟨h, fun hov => absurd hov (by simp [collect_go])⟩
  | cons q rest ih =>
    intro acc h
    by_cases h0 : (get_process_info env q).pid = 0
    · rw [show collect_go env pid (q :: rest) acc = collect_go env pid rest acc from by
        simp [collect_go, h0]]
      exact ih acc h
    · by_cases hm : is_in_tree env pid q = true ∧ q ≠ pid
      · by_cases hlen : acc.length < 1024
        · have hlen2 : (acc ++ [q]).length ≤ 1024 := by
            simp only [List.length_append, List.length_cons, List.length_nil]
            omega
          rw [show collect_go env pid (q :: rest) acc =
              collect_go env pid rest (acc ++ [q]) from by
            simp [collect_go, h0, hm, hlen]]
          exact ih (acc ++ [q]) hlen2
        · rw [show collect_go env pid (q :: rest) acc = (acc, true) from by
            simp [collect_go, h0, hm, hlen]]
          refine ⟨h, fun _ => ?_⟩
          show acc.length = 1024
          omega
      · rw [show collect_go env pid (q :: rest) acc = collect_go env pid rest acc from by
          simp [collect_go, h0, hm]]
        exact ih acc h

theorem collect_go_mem (env : Env) (pid : Nat) (es : List Nat) :
    ∀ acc : List Nat, ∀ p ∈ (collect_go env pid es acc).1, p ∈ acc ∨ p ≠ pid := by
  induction es with
  | nil =>
    intro acc p hp
    left
    simpa [collect_go] using hp
  | cons q rest ih =>
    intro acc p hp
    by_cases h0 : (get_process_info env q).pid = 0
    · rw [show collect_go env pid (q :: rest) acc = collect_go env pid rest acc from by
        simp [collect_go, h0]] at hp
      exact ih acc p hp
    · by_cases hm : is_in_tree env pid q = true ∧ q ≠ pid
      · by_cases hlen : acc.length < 1024
        · rw [show collect_go env pid (q :: rest) acc =
              collect_go env pid rest (acc ++ [q]) from by
            simp [collect_go, h0, hm, hlen]] at hp
          rcases ih (acc ++ [q]) p hp with hin | hne
          · rcases List.mem_append.mp hin with hin' | hin'
            · exact Or.inl hin'
            · have : p = q := by simpa using hin'
              exact Or.inr (this ▸ hm.2)
          · exact Or.inr hne
        · rw [show collect_go env pid (q :: rest) acc = (acc, true) from by
            simp [collect_go, h0, hm, hlen]] at hp
          exact Or.inl hp
      · rw [show collect_go env pid (q :: rest) acc = collect_go env pid rest acc from by
          simp [collect_go, h0, hm]] at hp
        exact ih acc p hp

/-- C2: the collection pass of kill_descendants gathers descendant pids in
enumeration order into a buffer of capacity 1024; when the overflow branch
is taken the buffer holds exactly 1024 pids (the scan stopped there) and the
non-fatal overflow warning appears in the diagnostic output, and every
collected pid receives a SIGKILL delivery attempt in the output in any
case. -/
theorem c2_capacity_overflow (env : Env) (pid : Nat) :
    (collect_go env pid env.entries []).1.length ≤ 1024 ∧
      ((collect_go env pid env.entries []).2 = true →
        (collect_go env pid env.entries []).1.length = 1024 ∧
          Event.overflowWarn ∈ kill_descendants env pid) ∧
      (∀ p ∈ (collect_go env pid env.entries []).1,
        Event.sigSend Sig.kill p ∈ kill_descendants env pid) := by
  obtain ⟨hlen, hov⟩ := collect_go_spec env pid env.entries [] (by simp)
  refine ⟨hlen, fun h => ⟨hov h, ?_⟩, ?_⟩
  · unfold kill_descendants
    rw [h]
    simp
  · intro p hp
    have hpass : Event.sigSend Sig.kill p ∈
        kd_kill_pass env (collect_go env pid env.entries []).1 := by
      rw [← mem_killTargets, kd_kill_pass_targets, List.mem_reverse]
      exact hp
    unfold kill_descendants
    rw [List.mem_append, List.mem_append]
    exact Or.inl (Or.inr hpass)

theorem c2_witness :
    (collect_go envA 1 envA.entries []).1.length ≤ 1024 ∧
      ((collect_go envA 1 envA.entries []).2 = true →
        (collect_go envA 1 envA.entries []).1.length = 1024 ∧
          Event.overflowWarn ∈ kill_descendants envA 1) ∧
      (∀ p ∈ (collect_go envA 1 envA.entries []).1,
        Event.sigSend Sig.kill p ∈ kill_descendants envA 1) :=
  c2_capacity_overflow envA 1

/-- C6: kill_descendants never attempts a SIGKILL on its root argument: the
kill events of the entire output trace, first pass and reconciliation rescan
alike, target it zero times. -/
theorem c6_never_kills_root (env : Env) (pid : Nat) :
    (kill_descendants env pid).count (Event.sigSend Sig.kill pid) = 0 := by
  rw [List.count_eq_zero]
  intro hmem
  have hp : pid ∈ killTargets (kill_descendants env pid) := mem_killTargets.mpr hmem
  unfold kill_descendants at hp
  rw [killTargets_append, killTargets_append] at hp
  rcases List.mem_append.mp hp with h12 | h3
  · rcases List.mem_append.mp h12 with h1 | h2
    · have hwt : killTargets
          (if (collect_go env pid env.entries []).2 then [Event.overflowWarn] else []) = [] := by
        split <;> rfl
      rw [hwt] at h1
      cases h1
    · rw [kd_kill_pass_targets, List.mem_reverse] at h2
      rcases collect_go_mem env pid env.entries [] pid h2 with h | h
      · cases h
      · exact h rfl
  · unfold kd_rescan at h3
    rw [killTargets_append] at h3
    rcases List.mem_append.mp h3 with h4 | h5
    · rw [killTargets_flatten_missed_one] at h4
      have hpred := List.of_mem_filter h4
      simp at hpred
    · have hnt : killTargets
          (if 0 < (kd_rescan_targets env pid).length then
            [Event.missedNote (kd_rescan_targets env pid).length]
          else []) = [] := by
        split <;> rfl
      rw [hnt] at h5
      cases h5

/-- C7: the SIGKILL deliveries of the first pass of kill_descendants, read
off the event trace in order, are exactly the collected pids in the reverse
of the order in which the collection scan gathered them. -/
theorem c7_first_pass_reverse_order (env : Env) (pid : Nat) :
    killTargets (kd_kill_pass env (collect_go env pid env.entries []).1) =
      (collect_go env pid env.entries []).1.reverse :=
  kd_kill_pass_targets env (collect_go env pid env.entries []).1

theorem mem_perEntry {env : Env} {f : Nat → List Event} {e : Event} :
    e ∈ perEntry env f ↔ ∃ p ∈ env.entries, e ∈ f p := by
  unfold perEntry
  rw [List.mem_flatten]
  constructor
  · rintro ⟨s, hs, hes⟩
    rw [List.mem_map] at hs
    obtain ⟨p, hp, hfp⟩ := hs
    exact ⟨p, hp, hfp ▸ hes⟩
  · rintro ⟨p, hp, hef⟩
    exact ⟨f p, List.mem_map_of_mem f hp, hef⟩

/-- C8: the pid lines printed by list_grandchildren and those printed by
list_immediate_descendants for the same target are disjoint: no pid appears
in both outputs (a record would have to be its own parent for that). -/
theorem c8_grandchildren_children_disjoint (env : Env) (t : Nat) (hwf : WFEnv env) :
    ∀ p, ¬(Event.pidLine p ∈ list_grandchildren env t ∧
      Event.pidLine p ∈ list_immediate_descendants env t) := by
  rintro p ⟨hg, hc⟩
  unfold list_immediate_descendants at hc
  obtain ⟨q, hq, hqe⟩ := mem_perEntry.mp hc
  split_ifs at hqe with hq0 hqp
  · cases hqe
  · have hpq : p = q := by simpa using hqe
    subst hpq
    unfold list_grandchildren at hg
    obtain ⟨c, hcmem, hce⟩ := mem_perEntry.mp hg
    split_ifs at hce with hcp
    · obtain ⟨g, hgmem, hge⟩ := mem_perEntry.mp hce
      split_ifs at hge with hgp
      · have hpg : p = g := by simpa using hge
        subst hpg
        have hct : c = t := by rw [← hgp, hqp]
        subst hct
        obtain ⟨hz, hrec, hpos⟩ := hwf
        cases hstat : env.stat c with
        | none =>
          have h0 : (get_process_info env c).ppid = 0 := by
            rw [get_process_info_none hstat]
          rw [hcp] at h0
          have := hpos c hcmem
          omega
        | some r =>
          have hinfo := get_process_info_some hstat
          obtain ⟨hrpid, hrppid⟩ := hrec c r hstat
          rw [hinfo] at hcp
          exact hrppid hcp
      · cases hge
    · cases hce
  · cases hqe

theorem c8_witness :
    WFEnv envA ∧ Event.pidLine 3 ∈ list_grandchildren envA 1 ∧
      ¬(Event.pidLine 3 ∈ list_grandchildren envA 1 ∧
        Event.pidLine 3 ∈ list_immediate_descendants envA 1) :=
  ⟨envA_wf, by decide, c8_grandchildren_children_disjoint envA 1 envA_wf 3⟩

/-- C4 counterexample: entry 5 of the listing has vanished (its stat read
fails), yet list_siblings with target 1 - whose parent pid is 0 - prints
pid 5: the sibling scan, alone among the bulk scans, never checks that the
record of the scanned entry was readable, and the zeroed record of the
vanished entry matches the parent pid 0 of the target. -/
theorem c4_counterexample :
    envV.stat 5 = none ∧ Event.pidLine 5 ∈ list_siblings envV 1 := by
  decide

/-- C4 amended: an entry whose per-pid fetch fails is omitted from the
defunct count and from every listing scan except list_siblings; in
list_siblings, with the target record readable, the vanished entry is
omitted exactly when the parent pid of the target is nonzero, and is
printed as a sibling when that parent pid is 0. -/
theorem c4_vanished_entry_filtering (env : Env) (t p : Nat) (hwf : WFEnv env)
    (hp : env.stat p = none) :
    defunctPred env t p = false ∧
      Event.pidLine p ∉ list_immediate_descendants env t ∧
      Event.pidLine p ∉ list_non_direct_descendants env t t ∧
      Event.pidLine p ∉ list_defunct_descendants env t ∧
      Event.pidLine p ∉ list_defunct_siblings env t ∧
      Event.pidLine p ∉ list_grandchildren env t ∧
      ((get_process_info env t).ppid ≠ 0 → Event.pidLine p ∉ list_siblings env t) ∧
      ((get_process_info env t).pid ≠ 0 → (get_process_info env t).ppid = 0 →
        p ∈ env.entries → p ≠ t → Event.pidLine p ∈ list_siblings env t) := by
  have hinfo : get_process_info env p = ⟨0, 0, ' '⟩ := get_process_info_none hp
  refine ⟨?_, ?_, ?_, ?_, ?_, ?_, ?_, ?_⟩
  · simp [defunctPred, hinfo]
  · intro hmem
    unfold list_immediate_descendants at hmem
    obtain ⟨q, hq, hqe⟩ := mem_perEntry.mp hmem
    split_ifs at hqe with h0 hpp
    · cases hqe
    · have hpq : p = q := by simpa using hqe
      subst hpq
      exact h0 (by rw [hinfo])
    · cases hqe
  · intro hmem
    unfold list_non_direct_descendants at hmem
    obtain ⟨q, hq, hqe⟩ := mem_perEntry.mp hmem
    split_ifs at hqe with h0 hpp
    · cases hqe
    · have hpq : p = q := by simpa using hqe
      subst hpq
      exact h0 (by rw [hinfo])
    · cases hqe
  · intro hmem
    unfold list_defunct_descendants at hmem
    obtain ⟨q, hq, hqe⟩ := mem_perEntry.mp hmem
    split_ifs at hqe with h0 hpp
    · cases hqe
    · have hpq : p = q := by simpa using hqe
      subst hpq
      exact h0 (by rw [hinfo])
    · cases hqe
  · intro hmem
    unfold list_defunct_siblings at hmem
    split_ifs at hmem with ht0
    · simp at hmem
    · obtain ⟨q, hq, hqe⟩ := mem_perEntry.mp hmem
      split_ifs at hqe with hself hcond
      · cases hqe
      · have hpq : p = q := by simpa using hqe
        subst hpq
        have hst : (get_process_info env p).state = 'Z' := hcond.2
        rw [hinfo] at hst
        exact absurd hst (by decide)
      · cases hqe
  · intro hmem
    unfold list_grandchildren at hmem
    obtain ⟨c, hcmem, hce⟩ := mem_perEntry.mp hmem
    split_ifs at hce with hcp
    · obtain ⟨g, hgmem, hge⟩ := mem_perEntry.mp hce
      split_ifs at hge with hgp
      · have hpg : p = g := by simpa using hge
        subst hpg
        simp only [hinfo] at hgp
        have hcpos := hwf.2.2 c hcmem
        omega
      · cases hge
    · cases hce
  · intro hppid hmem
    unfold list_siblings at hmem
    split_ifs at hmem with ht0
    · simp at hmem
    · obtain ⟨q, hq, hqe⟩ := mem_perEntry.mp hmem
      split_ifs at hqe with hself hcond
      · cases hqe
      · have hpq : p = q := by simpa using hqe
        subst hpq
        simp only [hinfo] at hcond
        omega
      · cases hqe
  · intro ht0 hppid0 hpe hpt
    have hform : list_siblings env t = perEntry env (fun q =>
        if q = t then []
        else if (get_process_info env q).ppid = (get_process_info env t).ppid then
          [Event.pidLine q]
        else []) := by
      simp [list_siblings, ht0]
    rw [hform]
    apply mem_perEntry.mpr
    refine ⟨p, hpe, ?_⟩
    rw [if_neg hpt, if_pos (by simp [hinfo, hppid0])]
    exact List.mem_singleton.mpr rfl

theorem c4_witness :
    defunctPred envV 1 5 = false ∧
      Event.pidLine 5 ∉ list_immediate_descendants envV 1 ∧
      Event.pidLine 5 ∉ list_non_direct_descendants envV 1 1 ∧
      Event.pidLine 5 ∉ list_defunct_descendants envV 1 ∧
      Event.pidLine 5 ∉ list_defunct_siblings envV 1 ∧
      Event.pidLine 5 ∉ list_grandchildren envV 1 ∧
      ((get_process_info envV 1).ppid ≠ 0 → Event.pidLine 5 ∉ list_siblings envV 1) ∧
      ((get_process_info envV 1).pid ≠ 0 → (get_process_info envV 1).ppid = 0 →
        5 ∈ envV.entries → 5 ≠ 1 → Event.pidLine 5 ∈ list_siblings envV 1) :=
  c4_vanished_entry_filtering envV 1 5 envV_wf (by decide)

theorem list_defunct_length_go (env : Env) (t : Nat) :
    ∀ es : List Nat,
      ((es.map (fun q =>
        if (get_process_info env q).pid = 0 then []
        else if is_in_tree env t q = true ∧ (get_process_info env q).state = 'Z' ∧
            q ≠ t then
          [Event.pidLine q]
        else [])).flatten).length =
      es.countP (fun q => defunctPred env t q && (q != t))
  | [] => rfl
  | q :: es => by
    rw [List.map_cons, List.flatten_cons, List.length_append,
      list_defunct_length_go env t es, List.countP_cons]
    have hfq : (if (get_process_info env q).pid = 0 then ([] : List Event)
        else if is_in_tree env t q = true ∧ (get_process_info env q).state = 'Z' ∧
            q ≠ t then
          [Event.pidLine q]
        else []).length =
        if defunctPred env t q && (q != t) then 1 else 0 := by
      by_cases h0 : (get_process_info env q).pid = 0
      · simp [h0, defunctPred]
      · by_cases h1 : is_in_tree env t q = true
        · by_cases h2 : (get_process_info env q).state = 'Z'
          · by_cases h3 : q = t
            · simp [h0, h1, h2, h3, defunctPred]
            · simp [h0, h1, h2, h3, defunctPred]
          · simp [h0, h1, h2, defunctPred]
        · replace h1 : is_in_tree env t q = false := by
            simpa using h1
          simp [h0, h1, defunctPred]
    omega

theorem list_defunct_length (env : Env) (t : Nat) :
    (list_defunct_descendants env t).length =
      env.entries.countP (fun q => defunctPred env t q && (q != t)) :=
  list_defunct_length_go env t env.entries

theorem aux_countP_with_target (t : Nat) (p : Nat → Bool) :
    ∀ l : List Nat, l.Nodup → t ∈ l → p t = true →
      l.countP p = l.countP (fun q => p q && (q != t)) + 1
  | [], _, ht, _ => absurd ht (List.not_mem_nil t)
  | a :: l, hnd, ht, hpt => by
    have hnd' := List.nodup_cons.mp hnd
    rw [List.countP_cons, List.countP_cons]
    by_cases hat : a = t
    · subst hat
      have hcong : l.countP p = l.countP (fun q => p q && (q != a)) := by
        apply List.countP_congr
        intro q hq
        have hqa : q ≠ a := fun h => hnd'.1 (h ▸ hq)
        simp [hqa]
      rw [hcong, hpt]
      simp
    · have htl : t ∈ l := by
        rcases List.mem_cons.mp ht with h | h
        · exact absurd h.symm hat
        · exact h
      rw [aux_countP_with_target t p l hnd'.2 htl hpt]
      have hbne : (a != t) = true := by
        simpa using hat
      rw [hbne]
      simp only [Bool.and_true]
      omega

/-- C5: the defunct count of a target dominates the number of pids the
zombie-descendant listing prints, they are equal whenever the record of the
target is not a zombie, and when the target is a zombie appearing in the
duplicate-free listing the count exceeds the printed number by exactly one
(the count ranges over the whole subtree including the target, the listing
excludes it). -/
theorem c5_defunct_count_dominates (env : Env) (t : Nat) (hnd : env.entries.Nodup) :
    (list_defunct_descendants env t).length ≤ count_defunct_descendants env t ∧
      (isZombieRec env t = false →
        (list_defunct_descendants env t).length = count_defunct_descendants env t) ∧
      (isZombieRec env t = true → t ∈ env.entries →
        count_defunct_descendants env t = (list_defunct_descendants env t).length + 1) := by
  have hlen := list_defunct_length env t
  refine ⟨?_, ?_, ?_⟩
  · rw [hlen]
    unfold count_defunct_descendants
    apply List.countP_mono_left
    intro q hq h
    rw [Bool.and_eq_true] at h
    exact h.1
  · intro hz
    rw [hlen]
    unfold count_defunct_descendants
    apply List.countP_congr
    intro q hq
    constructor
    · intro h
      rw [Bool.and_eq_true] at h
      exact h.1
    · intro h
      rw [Bool.and_eq_true]
      refine ⟨h, ?_⟩
      by_contra hbne
      have hqt : q = t := by
        simpa using hbne
      subst hqt
      have hzr : isZombieRec env q = true := by
        unfold defunctPred at h
        rw [Bool.and_eq_true, Bool.and_eq_true] at h
        unfold isZombieRec
        rw [Bool.and_eq_true]
        exact ⟨h.1, h.2.2⟩
      rw [hz] at hzr
      cases hzr
  · intro hz htm
    rw [hlen]
    unfold count_defunct_descendants
    have hpt : defunctPred env t t = true := by
      unfold defunctPred
      unfold isZombieRec at hz
      rw [Bool.and_eq_true] at hz
      rw [Bool.and_eq_true]
      refine ⟨hz.1, ?_⟩
      rw [Bool.and_eq_true]
      exact ⟨by simp [is_in_tree], hz.2⟩
    exact aux_countP_with_target t (defunctPred env t) env.entries hnd htm hpt

theorem c5_witness :
    envA.entries.Nodup ∧
      ((list_defunct_descendants envA 3).length ≤ count_defunct_descendants envA 3 ∧
        (isZombieRec envA 3 = false →
          (list_defunct_descendants envA 3).length = count_defunct_descendants envA 3) ∧
        (isZombieRec envA 3 = true → 3 ∈ envA.entries →
          count_defunct_descendants envA 3 =
            (list_defunct_descendants envA 3).length + 1)) :=
  ⟨by decide, c5_defunct_count_dominates envA 3 (by decide)⟩

theorem kzp_go_cons_skip (env : Env) (pid q : Nat) (rest : List Nat) (b : Bool)
    (h : (get_process_info env q).pid = 0 ∨ is_in_tree env pid q = false) :
    kzp_go env pid (q :: rest) b = kzp_go env pid rest b := by
  simp only [kzp_go]
  rw [if_pos h]

theorem kzp_go_cons_zombie_ok (env : Env) (pid q : Nat) (rest : List Nat) (b : Bool)
    (h1 : ¬((get_process_info env q).pid = 0 ∨ is_in_tree env pid q = false))
    (h2 : (get_process_info env q).state = 'Z' ∧ (get_process_info env q).ppid ≠ 0)
    (h3 : env.killOk (get_process_info env q).ppid = true) :
    kzp_go env pid (q :: rest) b =
      Event.sigSend Sig.kill (get_process_info env q).ppid ::
        Event.killedParentMsg (get_process_info env q).ppid q ::
          kzp_go env pid rest true := by
  simp only [kzp_go]
  rw [if_neg h1, if_pos h2, if_pos h3]

theorem kzp_go_cons_zombie_fail (env : Env) (pid q : Nat) (rest : List Nat) (b : Bool)
    (h1 : ¬((get_process_info env q).pid = 0 ∨ is_in_tree env pid q = false))
    (h2 : (get_process_info env q).state = 'Z' ∧ (get_process_info env q).ppid ≠ 0)
    (h3 : env.killOk (get_process_info env q).ppid = false) :
    kzp_go env pid (q :: rest) b =
      Event.sigSend Sig.kill (get_process_info env q).ppid ::
        Event.killParentFailMsg (get_process_info env q).ppid q ::
          kzp_go env pid rest b := by
  simp only [kzp_go]
  rw [if_neg h1, if_pos h2, if_neg (by simp [h3])]

theorem kzp_go_cons_not_zombie (env : Env) (pid q : Nat) (rest : List Nat) (b : Bool)
    (h1 : ¬((get_process_info env q).pid = 0 ∨ is_in_tree env pid q = false))
    (h2 : ¬((get_process_info env q).state = 'Z' ∧ (get_process_info env q).ppid ≠ 0)) :
    kzp_go env pid (q :: rest) b = kzp_go env pid rest b := by
  simp only [kzp_go]
  rw [if_neg h1, if_neg h2]

theorem zombieDescCond_iff (env : Env) (pid q : Nat) :
    zombieDescCond env pid q = true ↔
      (¬((get_process_info env q).pid = 0 ∨ is_in_tree env pid q = false) ∧
        ((get_process_info env q).state = 'Z' ∧ (get_process_info env q).ppid ≠ 0)) := by
  unfold zombieDescCond
  rw [Bool.and_eq_true, Bool.and_eq_true, Bool.and_eq_true]
  constructor
  · rintro ⟨ha, hb, hc, hd⟩
    refine ⟨?_, by simpa using hc, by simpa using hd⟩
    push_neg
    exact ⟨by simpa using ha, by simp [hb]⟩
  · rintro ⟨h1, h2, h3⟩
    push_neg at h1
    exact ⟨by simpa using h1.1, by simpa using h1.2, by simp [h2], by simpa using h3⟩

theorem kzp_go_sig_mem (env : Env) (pid : Nat) :
    ∀ (es : List Nat) (b : Bool) (q : Nat), q ∈ es → zombieDescCond env pid q = true →
      Event.sigSend Sig.kill (get_process_info env q).ppid ∈ kzp_go env pid es b := by
  intro es
  induction es with
  | nil =>
    intro b q hq
    cases hq
  | cons a rest ih =>
    intro b q hq hcond
    rcases List.mem_cons.mp hq with rfl | hq'
    · obtain ⟨h1, h2⟩ := (zombieDescCond_iff env pid q).mp hcond
      by_cases h3 : env.killOk (get_process_info env q).ppid = true
      · rw [kzp_go_cons_zombie_ok env pid q rest b h1 h2 h3]
        exact List.mem_cons_self _ _
      · replace h3 : env.killOk (get_process_info env q).ppid = false := by
          simpa using h3
        rw [kzp_go_cons_zombie_fail env pid q rest b h1 h2 h3]
        exact List.mem_cons_self _ _
    · by_cases ha1 : (get_process_info env a).pid = 0 ∨ is_in_tree env pid a = false
      · rw [kzp_go_cons_skip env pid a rest b ha1]
        exact ih b q hq' hcond
      · by_cases ha2 : (get_process_info env a).state = 'Z' ∧
            (get_process_info env a).ppid ≠ 0
        · by_cases ha3 : env.killOk (get_process_info env a).ppid = true
          · rw [kzp_go_cons_zombie_ok env pid a rest b ha1 ha2 ha3]
            exact List.mem_cons_of_mem _ (List.mem_cons_of_mem _ (ih true q hq' hcond))
          · replace ha3 : env.killOk (get_process_info env a).ppid = false := by
              simpa using ha3
            rw [kzp_go_cons_zombie_fail env pid a rest b ha1 ha2 ha3]
            exact List.mem_cons_of_mem _ (List.mem_cons_of_mem _ (ih b q hq' hcond))
        · rw [kzp_go_cons_not_zombie env pid a rest b ha1 ha2]
          exact ih b q hq' hcond

theorem kzp_go_noZombie_iff (env : Env) (pid : Nat) :
    ∀ (es : List Nat) (b : Bool),
      Event.noZombieMsg pid ∈ kzp_go env pid es b ↔
        (b = false ∧ ∀ q ∈ es,
          ¬(zombieDescCond env pid q = true ∧
            env.killOk (get_process_info env q).ppid = true)) := by
  intro es
  induction es with
  | nil =>
    intro b
    cases b <;> simp [kzp_go]
  | cons a rest ih =>
    intro b
    by_cases ha1 : (get_process_info env a).pid = 0 ∨ is_in_tree env pid a = false
    · rw [kzp_go_cons_skip env pid a rest b ha1, ih b]
      have hca : ¬ zombieDescCond env pid a = true := by
        intro hc
        exact ((zombieDescCond_iff env pid a).mp hc).1 ha1
      constructor
      · rintro ⟨hb, hrest⟩
        refine ⟨hb, ?_⟩
        intro q hq
        rcases List.mem_cons.mp hq with rfl | hq'
        · rintro ⟨hc, -⟩
          exact hca hc
        · exact hrest q hq'
      · rintro ⟨hb, hall⟩
        exact ⟨hb, fun q hq => hall q (List.mem_cons_of_mem a hq)⟩
    · by_cases ha2 : (get_process_info env a).state = 'Z' ∧
          (get_process_info env a).ppid ≠ 0
      · have hca : zombieDescCond env pid a = true :=
          (zombieDescCond_iff env pid a).mpr ⟨ha1, ha2⟩
        by_cases ha3 : env.killOk (get_process_info env a).ppid = true
        · rw [kzp_go_cons_zombie_ok env pid a rest b ha1 ha2 ha3]
          rw [List.mem_cons, List.mem_cons]
          constructor
          · rintro (h | h | h)
            · exact absurd h (by simp)
            · exact absurd h (by simp)
            · rw [ih true] at h
              exact absurd h.1 (by simp)
          · rintro ⟨hb, hall⟩
            exact absurd ⟨hca, ha3⟩ (hall a (List.mem_cons_self a rest))
        · replace ha3 : env.killOk (get_process_info env a).ppid = false := by
            simpa using ha3
          rw [kzp_go_cons_zombie_fail env pid a rest b ha1 ha2 ha3]
          rw [List.mem_cons, List.mem_cons, ih b]
          constructor
          · rintro (h | h | ⟨hb, hrest⟩)
            · exact absurd h (by simp)
            · exact absurd h (by simp)
            · refine ⟨hb, ?_⟩
              intro q hq
              rcases List.mem_cons.mp hq with rfl | hq'
              · rintro ⟨-, hko⟩
                rw [ha3] at hko
                cases hko
              · exact hrest q hq'
          · rintro ⟨hb, hall⟩
            right
            right
            exact ⟨hb, fun q hq => hall q (List.mem_cons_of_mem a hq)⟩
      · rw [kzp_go_cons_not_zombie env pid a rest b ha1 ha2, ih b]
        have hca : ¬ zombieDescCond env pid a = true := by
          intro hc
          exact ha2 ((zombieDescCond_iff env pid a).mp hc).2
        constructor
        · rintro ⟨hb, hrest⟩
          refine ⟨hb, ?_⟩
          intro q hq
          rcases List.mem_cons.mp hq with rfl | hq'
          · rintro ⟨hc, -⟩
            exact hca hc
          · exact hrest q hq'
        · rintro ⟨hb, hall⟩
          exact ⟨hb, fun q hq => hall q (List.mem_cons_of_mem a hq)⟩

/-- C3 counterexample: in envZ process 2 is a zombie member of the tree of 1
with a nonzero parent pid, so a zombie is found among the descendants, yet
the no-zombie message is printed: the kill of the parent fails, the
killed_any flag stays unset, and the final report claims no zombie was
found. -/
theorem c3_counterexample :
    zombieDescCond envZ 1 2 = true ∧ 2 ∈ envZ.entries ∧
      Event.noZombieMsg 1 ∈ kill_zombie_parents envZ 1 := by
  decide

/-- C3 amended: kill_zombie_parents attempts a SIGKILL on the parent of
every zombie tree member whose parent pid is nonzero - never on the zombie
itself, since no well-formed record is its own parent - and prints the
no-zombie message exactly when no parent kill succeeded, which reports the
absence of zombies only up to kill failures: a zombie whose parent kill
failed still yields the no-zombie report, and genuine absence is reported
the same way as a normal outcome. -/
theorem c3_kill_zombie_parents_behaviour (env : Env) (pid : Nat) (hwf : WFEnv env) :
    (∀ q ∈ env.entries, zombieDescCond env pid q = true →
      Event.sigSend Sig.kill (get_process_info env q).ppid ∈
          kill_zombie_parents env pid ∧
        (get_process_info env q).ppid ≠ q) ∧
      (Event.noZombieMsg pid ∈ kill_zombie_parents env pid ↔
        ∀ q ∈ env.entries,
          ¬(zombieDescCond env pid q = true ∧
            env.killOk (get_process_info env q).ppid = true)) := by
  constructor
  · intro q hq hcond
    constructor
    · exact kzp_go_sig_mem env pid env.entries false q hq hcond
    · obtain ⟨h1, -⟩ := (zombieDescCond_iff env pid q).mp hcond
      push_neg at h1
      have hpid : (get_process_info env q).pid ≠ 0 := h1.1
      cases hstat : env.stat q with
      | none =>
        have h0 : (get_process_info env q).pid = 0 := by
          rw [get_process_info_none hstat]
        exact absurd h0 hpid
      | some r =>
        have hinfo := get_process_info_some hstat
        obtain ⟨hrpid, hrppid⟩ := hwf.2.1 q r hstat
        rw [hinfo]
        exact hrppid
  · rw [show kill_zombie_parents env pid = kzp_go env pid env.entries false from rfl,
      kzp_go_noZombie_iff env pid env.entries false]
    simp

theorem c3_witness :
    (∀ q ∈ envZ.entries, zombieDescCond envZ 1 q = true →
      Event.sigSend Sig.kill (get_process_info envZ q).ppid ∈
          kill_zombie_parents envZ 1 ∧
        (get_process_info envZ q).ppid ≠ q) ∧
      (Event.noZombieMsg 1 ∈ kill_zombie_parents envZ 1 ↔
        ∀ q ∈ envZ.entries,
          ¬(zombieDescCond envZ 1 q = true ∧
            envZ.killOk (get_process_info envZ q).ppid = true)) :=
  c3_kill_zombie_parents_behaviour envZ 1 envZ_wf

/-- C9: when the root record cannot be fetched and the two pids passed
validation, the driver reports the root-missing error on the diagnostic
stream and exits with code 1, its whole output being that single error
event: no tree-membership result, relationship query output, or signal
delivery is ever produced for the target. -/
theorem c9_root_fetch_failure_aborts (env : Env) (root_pid target_pid : Nat)
    (opt : Option CliOpt) (hr : 0 < root_pid) (ht : 0 < target_pid)
    (hstat : env.stat root_pid = none) :
    runMain env root_pid target_pid opt = (1, [Event.errRootMissing root_pid]) := by
  unfold runMain
  rw [if_neg (by omega), if_pos (by rw [get_process_info_none hstat])]

theorem c9_witness :
    runMain envA 7 1 (some CliOpt.sk) = (1, [Event.errRootMissing 7]) :=
  c9_root_fetch_failure_aborts envA 7 1 (some CliOpt.sk) (by decide) (by decide)
    (by decide)
